import Mathlib

/-!
Verification of the coreline hexagonal-grid geometry engine.

The repository contains two JavaScript implementations:
  * `src/unnamed/part_000` — pointy-top variant: `Hex` (forgiving constructor),
    `hex_to_pixel`, `hex_round`, `pixel_to_hex`, `updateGridDisplay`
    (radius-bounded enumeration), `onHexClick`, `HEX_CONSTANTS`;
  * `src/script.js` — flat-top variant: strict `Hex` constructor, `toPixel`,
    `HexGrid.generateGrid` (rectangle-bounded enumeration),
    `GameRenderer.drawGrid` (selection invalidation on rebuild).

Every number manipulated by the program is produced from rational literals
and `Math.sqrt(3)` by field operations, `Math.round`, `Math.floor`,
`Math.ceil`, `Math.abs`, `Math.min`, `Math.max` and comparisons.  We model
JavaScript numbers exactly by the subfield ℚ[√3] ⊆ ℝ: a value `a + b·√3`
is represented by the pair `(a, b)` of rationals.  All operations below are
computable and kernel-reducible (rational arithmetic is routed through
`mkRat`, `Rat.divInt`, integer euclidean division and a structurally
recursive integer square root, so that `decide` can evaluate every
definition on concrete inputs).  The (noncomputable) interpretation
`Q3.val : Q3 → ℝ` is used only to state and prove that the computable
order, floor and rounding functions mean what they should on ℝ.
-/

/-! ### Kernel-reducible rational arithmetic -/

/-- Addition on `ℚ`, written so that the kernel can evaluate it. -/
def qadd (x y : ℚ) : ℚ := mkRat (x.num * y.den + y.num * x.den) (x.den * y.den)

/-- Subtraction on `ℚ`, written so that the kernel can evaluate it. -/
def qsub (x y : ℚ) : ℚ := mkRat (x.num * y.den - y.num * x.den) (x.den * y.den)

/-- Multiplication on `ℚ`, written so that the kernel can evaluate it. -/
def qmul (x y : ℚ) : ℚ := mkRat (x.num * y.num) (x.den * y.den)

/-- Inverse on `ℚ` (`0⁻¹ = 0`), written so that the kernel can evaluate it. -/
def qinv (x : ℚ) : ℚ := Rat.divInt (x.den : ℤ) x.num

/-- Division on `ℚ`, written so that the kernel can evaluate it. -/
def qdiv (x y : ℚ) : ℚ := qmul x (qinv y)

lemma qadd_eq (x y : ℚ) : qadd x y = x + y := (Rat.add_def' x y).symm

lemma qsub_eq (x y : ℚ) : qsub x y = x - y := (Rat.sub_def' x y).symm

lemma qmul_eq (x y : ℚ) : qmul x y = x * y := by
  rw [qmul, Rat.mul_def, Rat.mkRat_def, dif_neg (Nat.mul_ne_zero x.den_nz y.den_nz)]

lemma qinv_eq (x : ℚ) : qinv x = x⁻¹ := by
  rw [qinv, ← Rat.inv_def]
  rfl

lemma qdiv_eq (x y : ℚ) : qdiv x y = x / y := by
  rw [qdiv, qmul_eq, qinv_eq, div_eq_mul_inv]

/-! ### The number model `Q3 = ℚ[√3]` -/

/-- Exact representation of the real number `a + b * √3`. -/
@[ext] structure Q3 where
  a : ℚ
  b : ℚ
deriving DecidableEq, Repr

/-- The real number represented by `x : Q3`. -/
noncomputable def Q3.val (x : Q3) : ℝ := (x.a : ℝ) + (x.b : ℝ) * Real.sqrt 3

/-- Embedding of an integer. -/
def intQ3 (n : ℤ) : Q3 := ⟨(n : ℚ), 0⟩

/-- Embedding of a rational literal. -/
def Q3.ofRat (q : ℚ) : Q3 := ⟨q, 0⟩

/-- The constant `SQRT3 = Math.sqrt(3)` of the program. -/
def sqrt3Q : Q3 := ⟨0, 1⟩

instance : Zero Q3 := ⟨⟨0, 0⟩⟩

instance : One Q3 := ⟨⟨1, 0⟩⟩

instance : Add Q3 := ⟨fun x y => ⟨qadd x.a y.a, qadd x.b y.b⟩⟩

instance : Neg Q3 := ⟨fun x => ⟨-x.a, -x.b⟩⟩

instance : Sub Q3 := ⟨fun x y => ⟨qsub x.a y.a, qsub x.b y.b⟩⟩

instance : Mul Q3 :=
  ⟨fun x y => ⟨qadd (qmul x.a y.a) (qmul 3 (qmul x.b y.b)),
               qadd (qmul x.a y.b) (qmul x.b y.a)⟩⟩

/-- Exact multiplicative inverse in ℚ[√3] (with `0⁻¹ = 0`):
`(a + b√3)⁻¹ = (a - b√3) / (a² - 3b²)`. -/
instance : Inv Q3 :=
  ⟨fun x => ⟨qdiv x.a (qsub (qmul x.a x.a) (qmul 3 (qmul x.b x.b))),
             qdiv (-x.b) (qsub (qmul x.a x.a) (qmul 3 (qmul x.b x.b)))⟩⟩

instance : Div Q3 := ⟨fun x y => x * y⁻¹⟩

@[simp] lemma Q3.add_a (x y : Q3) : (x + y).a = x.a + y.a := qadd_eq x.a y.a

@[simp] lemma Q3.add_b (x y : Q3) : (x + y).b = x.b + y.b := qadd_eq x.b y.b

@[simp] lemma Q3.neg_a (x : Q3) : (-x).a = -x.a := rfl

@[simp] lemma Q3.neg_b (x : Q3) : (-x).b = -x.b := rfl

@[simp] lemma Q3.sub_a (x y : Q3) : (x - y).a = x.a - y.a := qsub_eq x.a y.a

@[simp] lemma Q3.sub_b (x y : Q3) : (x - y).b = x.b - y.b := qsub_eq x.b y.b

@[simp] lemma Q3.mul_a (x y : Q3) : (x * y).a = x.a * y.a + 3 * (x.b * y.b) := by
  show qadd (qmul x.a y.a) (qmul 3 (qmul x.b y.b)) = _
  rw [qadd_eq, qmul_eq, qmul_eq, qmul_eq]

@[simp] lemma Q3.mul_b (x y : Q3) : (x * y).b = x.a * y.b + x.b * y.a := by
  show qadd (qmul x.a y.b) (qmul x.b y.a) = _
  rw [qadd_eq, qmul_eq, qmul_eq]

@[simp] lemma Q3.zero_a : (0 : Q3).a = 0 := rfl

@[simp] lemma Q3.zero_b : (0 : Q3).b = 0 := rfl

lemma sqrt3_pos : (0 : ℝ) < Real.sqrt 3 := Real.sqrt_pos.mpr (by norm_num)

lemma sqrt3_mul_self : Real.sqrt 3 * Real.sqrt 3 = 3 := Real.mul_self_sqrt (by norm_num)

lemma irrational_sqrt3 : Irrational (Real.sqrt 3) := by
  simpa using Nat.prime_three.irrational_sqrt

@[simp] lemma Q3.val_mk (a b : ℚ) : (Q3.mk a b).val = (a : ℝ) + (b : ℝ) * Real.sqrt 3 := rfl

@[simp] lemma Q3.val_add (x y : Q3) : (x + y).val = x.val + y.val := by
  rw [Q3.val, Q3.val, Q3.val, Q3.add_a, Q3.add_b]
  push_cast
  ring

@[simp] lemma Q3.val_neg (x : Q3) : (-x).val = -x.val := by
  rw [Q3.val, Q3.val, Q3.neg_a, Q3.neg_b]
  push_cast
  ring

@[simp] lemma Q3.val_sub (x y : Q3) : (x - y).val = x.val - y.val := by
  rw [Q3.val, Q3.val, Q3.val, Q3.sub_a, Q3.sub_b]
  push_cast
  ring

@[simp] lemma Q3.val_mul (x y : Q3) : (x * y).val = x.val * y.val := by
  rw [Q3.val, Q3.val, Q3.val, Q3.mul_a, Q3.mul_b]
  push_cast
  linear_combination (-(x.b : ℝ) * (y.b : ℝ)) * sqrt3_mul_self

@[simp] lemma Q3.val_zero : (0 : Q3).val = 0 := by simp [Q3.val]

@[simp] lemma Q3.val_intQ3 (n : ℤ) : (intQ3 n).val = (n : ℝ) := by simp [intQ3, Q3.val]

@[simp] lemma Q3.val_ofRat (q : ℚ) : (Q3.ofRat q).val = (q : ℝ) := by simp [Q3.ofRat, Q3.val]

@[simp] lemma Q3.val_sqrt3Q : sqrt3Q.val = Real.sqrt 3 := by simp [sqrt3Q, Q3.val]

/-- If `a + b√3 = 0` with `a b : ℚ` then `a = 0` and `b = 0` (`√3` is irrational). -/
lemma ratCombo_sqrt3_eq_zero {a b : ℚ} (h : (a : ℝ) + (b : ℝ) * Real.sqrt 3 = 0) :
    a = 0 ∧ b = 0 := by
  by_cases hb : b = 0
  · subst hb
    refine ⟨?_, rfl⟩
    have : (a : ℝ) = 0 := by simpa using h
    exact_mod_cast this
  · exfalso
    have hbR : (b : ℝ) ≠ 0 := by exact_mod_cast hb
    have hval : Real.sqrt 3 = ((-a / b : ℚ) : ℝ) := by
      push_cast
      field_simp
      linarith
    exact irrational_sqrt3 ⟨-a / b, hval.symm⟩

/-- `val` is injective: `a + b√3` determines `(a, b)` because `√3` is irrational. -/
lemma Q3.val_inj {x y : Q3} (h : x.val = y.val) : x = y := by
  rcases x with ⟨a, b⟩
  rcases y with ⟨a', b'⟩
  simp only [Q3.val_mk] at h
  have h0 : ((a - a' : ℚ) : ℝ) + ((b - b' : ℚ) : ℝ) * Real.sqrt 3 = 0 := by
    push_cast
    linarith
  obtain ⟨ha, hb⟩ := ratCombo_sqrt3_eq_zero h0
  exact Q3.ext (by linarith [sub_eq_zero.mp ha]) (by linarith [sub_eq_zero.mp hb])

/-- Decides `0 < a + b√3` by rational arithmetic alone. -/
def Q3.posB (x : Q3) : Bool :=
  if 0 < x.b then decide (0 ≤ x.a) || decide (qmul x.a x.a < qmul 3 (qmul x.b x.b))
  else if x.b = 0 then decide (0 < x.a)
  else decide (0 < x.a) && decide (qmul 3 (qmul x.b x.b) < qmul x.a x.a)

lemma Q3.posB_iff (x : Q3) : x.posB = true ↔ 0 < x.val := by
  obtain ⟨a, b⟩ := x
  have s3 := sqrt3_pos
  have m3 := sqrt3_mul_self
  simp only [Q3.posB, Q3.val_mk, qmul_eq]
  split_ifs with h1 h2
  · -- case 0 < b
    have hbR : (0 : ℝ) < (b : ℝ) := by exact_mod_cast h1
    have hbs : (0 : ℝ) < (b : ℝ) * Real.sqrt 3 := mul_pos hbR s3
    simp only [Bool.or_eq_true, decide_eq_true_eq]
    constructor
    · rintro (ha | hsq)
      · have haR : (0 : ℝ) ≤ (a : ℝ) := by exact_mod_cast ha
        linarith
      · have hR : ((a : ℝ)) * a < 3 * ((b : ℝ) * b) := by exact_mod_cast hsq
        by_contra hc
        push_neg at hc
        have h2' : (b : ℝ) * Real.sqrt 3 ≤ -(a : ℝ) := by linarith
        have := mul_self_le_mul_self hbs.le h2'
        nlinarith
    · intro h
      by_cases ha : 0 ≤ a
      · exact Or.inl ha
      · push_neg at ha
        have haR : (a : ℝ) < 0 := by exact_mod_cast ha
        refine Or.inr ?_
        have h2' : -(a : ℝ) < (b : ℝ) * Real.sqrt 3 := by linarith
        have := mul_self_lt_mul_self (by linarith) h2'
        have : ((a : ℝ)) * a < 3 * ((b : ℝ) * b) := by nlinarith
        exact_mod_cast this
  · -- case b = 0
    subst h2
    simp only [decide_eq_true_eq, Rat.cast_zero, zero_mul, add_zero]
    exact Rat.cast_pos.symm
  · -- case b < 0
    have hb : b < 0 := lt_of_le_of_ne (not_lt.mp h1) h2
    have hbR : (b : ℝ) < 0 := by exact_mod_cast hb
    have hbs : (0 : ℝ) < -(b : ℝ) * Real.sqrt 3 := mul_pos (by linarith) s3
    simp only [Bool.and_eq_true, decide_eq_true_eq]
    constructor
    · rintro ⟨ha, hsq⟩
      have haR : (0 : ℝ) < (a : ℝ) := by exact_mod_cast ha
      have hR : 3 * ((b : ℝ) * b) < (a : ℝ) * a := by exact_mod_cast hsq
      by_contra hc
      push_neg at hc
      have h2' : (a : ℝ) ≤ -(b : ℝ) * Real.sqrt 3 := by linarith
      have := mul_self_le_mul_self haR.le h2'
      nlinarith
    · intro h
      have haR : (0 : ℝ) < (a : ℝ) := by linarith
      have h2' : -(b : ℝ) * Real.sqrt 3 < (a : ℝ) := by linarith
      have := mul_self_lt_mul_self hbs.le h2'
      refine ⟨by exact_mod_cast haR, ?_⟩
      have : 3 * ((b : ℝ) * b) < (a : ℝ) * a := by nlinarith
      exact_mod_cast this

instance : LT Q3 := ⟨fun x y => Q3.posB (y - x) = true⟩

instance : LE Q3 := ⟨fun x y => Q3.posB (x - y) = false⟩

instance Q3.decLt (x y : Q3) : Decidable (x < y) :=
  inferInstanceAs (Decidable (_ = true))

instance Q3.decLe (x y : Q3) : Decidable (x ≤ y) :=
  inferInstanceAs (Decidable (_ = false))

lemma Q3.lt_iff_val {x y : Q3} : x < y ↔ x.val < y.val := by
  show Q3.posB (y - x) = true ↔ _
  rw [Q3.posB_iff]
  simp

lemma Q3.le_iff_val {x y : Q3} : x ≤ y ↔ x.val ≤ y.val := by
  show Q3.posB (x - y) = false ↔ _
  rw [← Bool.not_eq_true, not_iff_comm, Q3.posB_iff]
  simp

/-! ### Kernel-reducible integer square root and floors -/

/-- Fuel-driven binary integer square root (structural recursion, so the
kernel can evaluate it; `fuel ≥ n` suffices). -/
def isqrtAux : ℕ → ℕ → ℕ
  | 0, _ => 0
  | fuel + 1, n =>
    if n < 2 then n
    else
      if (2 * isqrtAux fuel (n / 4) + 1) * (2 * isqrtAux fuel (n / 4) + 1) ≤ n
      then 2 * isqrtAux fuel (n / 4) + 1
      else 2 * isqrtAux fuel (n / 4)

/-- Integer square root: the largest `k` with `k * k ≤ n`. -/
def isqrt (n : ℕ) : ℕ := isqrtAux n n

lemma isqrtAux_spec (fuel : ℕ) : ∀ n : ℕ, n ≤ fuel →
    isqrtAux fuel n * isqrtAux fuel n ≤ n ∧ n < (isqrtAux fuel n + 1) * (isqrtAux fuel n + 1) := by
  induction fuel with
  | zero =>
    intro n hn
    interval_cases n
    simp [isqrtAux]
  | succ fuel ih =>
    intro n hn
    by_cases h2 : n < 2
    · interval_cases n
      · simp [isqrtAux]
      · simp [isqrtAux]
    · have hrec := ih (n / 4) (by omega)
      obtain ⟨hL, hU⟩ := hrec
      have h5 : 4 * (n / 4) ≤ n := by omega
      have h6 : n < 4 * (n / 4) + 4 := by omega
      rw [isqrtAux, if_neg h2]
      set r0 := isqrtAux fuel (n / 4) with hr0
      split_ifs with hc
      · exact ⟨hc, by nlinarith⟩
      · exact ⟨by nlinarith, by omega⟩

lemma isqrt_le (n : ℕ) : isqrt n * isqrt n ≤ n := (isqrtAux_spec n n le_rfl).1

lemma lt_succ_isqrt (n : ℕ) : n < (isqrt n + 1) * (isqrt n + 1) := (isqrtAux_spec n n le_rfl).2

/-- Euclidean division computes the floor of the exact quotient. -/
lemma ediv_eq_floor (n d : ℤ) (hd : 0 < d) : n / d = ⌊(n : ℚ) / (d : ℚ)⌋ := by
  have h1 := Int.ediv_add_emod n d
  have h2 : 0 ≤ n % d := Int.emod_nonneg n hd.ne'
  have h3 : n % d < d := Int.emod_lt_of_pos n hd
  have hdQ : (0 : ℚ) < (d : ℚ) := by exact_mod_cast hd
  have hQ : (d : ℚ) * ((n / d : ℤ) : ℚ) + ((n % d : ℤ) : ℚ) = (n : ℚ) := by
    exact_mod_cast h1
  symm
  rw [Int.floor_eq_iff]
  constructor
  · rw [le_div_iff₀ hdQ]
    have h2Q : (0 : ℚ) ≤ ((n % d : ℤ) : ℚ) := by exact_mod_cast h2
    nlinarith
  · rw [div_lt_iff₀ hdQ]
    have h3Q : ((n % d : ℤ) : ℚ) < (d : ℚ) := by exact_mod_cast h3
    nlinarith

/-- Integer floor of `n * √3`, computed with `isqrt`.  For `n < 0` the value
`n√3` is irrational, so its floor is `-(isqrt (3 n²)) - 1`. -/
def sqrtFloor3 (n : ℤ) : ℤ :=
  if 0 ≤ n then (isqrt (3 * n * n).toNat : ℤ)
  else -(isqrt (3 * n * n).toNat : ℤ) - 1

lemma sqrtFloor3_spec (n : ℤ) :
    (sqrtFloor3 n : ℝ) ≤ (n : ℝ) * Real.sqrt 3 ∧
      (n : ℝ) * Real.sqrt 3 < (sqrtFloor3 n : ℝ) + 1 := by
  have s3 := sqrt3_pos
  have m3 := sqrt3_mul_self
  unfold sqrtFloor3
  set m : ℕ := (3 * n * n).toNat with hm
  set k : ℕ := isqrt m with hk
  have hmZ : (m : ℤ) = 3 * n * n := Int.toNat_of_nonneg (by nlinarith [mul_self_nonneg n])
  have hmR : (m : ℝ) = 3 * (n : ℝ) * n := by exact_mod_cast hmZ
  have hk1 : (k : ℕ) * k ≤ m := isqrt_le m
  have hk2 : m < (k + 1) * (k + 1) := lt_succ_isqrt m
  have hk1R : ((k : ℝ)) * k ≤ (m : ℝ) := by exact_mod_cast hk1
  have hk2R : (m : ℝ) < ((k : ℝ) + 1) * ((k : ℝ) + 1) := by exact_mod_cast hk2
  by_cases hn : 0 ≤ n
  · have hnR : (0 : ℝ) ≤ (n : ℝ) := by exact_mod_cast hn
    have hv : (0 : ℝ) ≤ (n : ℝ) * Real.sqrt 3 := by positivity
    have hsq : ((n : ℝ) * Real.sqrt 3) * ((n : ℝ) * Real.sqrt 3) = 3 * (n : ℝ) * n := by
      rw [mul_mul_mul_comm, m3]
      ring
    rw [if_pos hn]
    constructor
    · by_contra hc
      push_neg at hc
      have hcast : ((k : ℤ) : ℝ) = ((k : ℕ) : ℝ) := by push_cast; ring
      rw [hcast] at hc
      have h2 := mul_self_lt_mul_self hv hc
      rw [hsq] at h2
      linarith
    · by_contra hc
      push_neg at hc
      have hcast : ((k : ℤ) : ℝ) = ((k : ℕ) : ℝ) := by push_cast; ring
      rw [hcast] at hc
      have h2 := mul_self_le_mul_self (by positivity) hc
      rw [hsq] at h2
      linarith
  · push_neg at hn
    have hnR : (n : ℝ) < 0 := by exact_mod_cast hn
    have hsq : (-(n : ℝ) * Real.sqrt 3) * (-(n : ℝ) * Real.sqrt 3) = 3 * (n : ℝ) * n := by
      rw [mul_mul_mul_comm, m3]
      ring
    rw [if_neg (not_le.mpr hn)]
    have hps : (0 : ℝ) < -(n : ℝ) * Real.sqrt 3 := mul_pos (by linarith) s3
    have hub : -(n : ℝ) * Real.sqrt 3 < (k : ℝ) + 1 := by
      by_contra hc
      push_neg at hc
      have h2 := mul_self_le_mul_self (by positivity) hc
      rw [hsq] at h2
      linarith
    have hlbw : (k : ℝ) ≤ -(n : ℝ) * Real.sqrt 3 := by
      by_contra hc
      push_neg at hc
      have h2 := mul_self_lt_mul_self hps.le hc
      rw [hsq] at h2
      linarith
    have hne : ((k : ℝ)) ≠ -(n : ℝ) * Real.sqrt 3 := by
      intro he
      have hnne : -(n : ℝ) ≠ 0 := by linarith
      have hq : (((k : ℚ) / (-(n : ℤ) : ℚ) : ℚ) : ℝ) = Real.sqrt 3 := by
        push_cast
        rw [div_eq_iff hnne]
        linear_combination he
      exact irrational_sqrt3 ⟨_, hq⟩
    have hlb : (k : ℝ) < -(n : ℝ) * Real.sqrt 3 := lt_of_le_of_ne hlbw hne
    push_cast
    constructor
    · linarith
    · linarith

/-- Computable floor of a `Q3` value (`Math.floor` of the program, on exact reals). -/
def floorQ3 (x : Q3) : ℤ :=
  if intQ3 ((x.a.num * x.b.den + sqrtFloor3 x.b.num * x.a.den) / (x.a.den * x.b.den) + 1) ≤ x
  then (x.a.num * x.b.den + sqrtFloor3 x.b.num * x.a.den) / (x.a.den * x.b.den) + 1
  else (x.a.num * x.b.den + sqrtFloor3 x.b.num * x.a.den) / (x.a.den * x.b.den)

lemma floorQ3_spec (x : Q3) : (floorQ3 x : ℝ) ≤ x.val ∧ x.val < (floorQ3 x : ℝ) + 1 := by
  unfold floorQ3
  obtain ⟨ht1, ht2⟩ := sqrtFloor3_spec x.b.num
  set t : ℤ := sqrtFloor3 x.b.num with htdef
  have hadQ : (0 : ℚ) < (x.a.den : ℚ) := by exact_mod_cast x.a.den_pos
  have hbdQ : (0 : ℚ) < (x.b.den : ℚ) := by exact_mod_cast x.b.den_pos
  have hnum_a : (x.a.num : ℚ) = x.a * (x.a.den : ℚ) := by
    have h : (x.a.num : ℚ) / (x.a.den : ℚ) = x.a := Rat.num_div_den x.a
    rw [div_eq_iff hadQ.ne'] at h
    exact h
  have hcfl : (x.a.num * (x.b.den : ℤ) + t * (x.a.den : ℤ)) / ((x.a.den : ℤ) * (x.b.den : ℤ))
      = ⌊(x.a : ℚ) + (t : ℚ) / (x.b.den : ℚ)⌋ := by
    rw [ediv_eq_floor _ _ (by positivity)]
    congr 1
    rw [div_eq_iff (by positivity : (((x.a.den : ℤ) * (x.b.den : ℤ) : ℤ) : ℚ) ≠ 0)]
    push_cast
    field_simp
    linear_combination ((x.b.den : ℚ)) ^ 2 * hnum_a
  rw [hcfl]
  set cq : ℚ := x.a + (t : ℚ) / (x.b.den : ℚ) with hcqdef
  set c : ℤ := ⌊cq⌋ with hcdef
  have hden : (0 : ℝ) < (x.b.den : ℝ) := by exact_mod_cast x.b.den_pos
  have hden1 : (1 : ℝ) ≤ (x.b.den : ℝ) := by
    exact_mod_cast Nat.one_le_iff_ne_zero.mpr x.b.den_nz
  have hbval : (x.b : ℝ) = (x.b.num : ℝ) / (x.b.den : ℝ) := by
    rw [show (x.b : ℝ) = (((x.b.num : ℚ) / (x.b.den : ℚ) : ℚ) : ℝ) by
      rw [Rat.num_div_den]]
    push_cast
    ring
  have hbden : (x.b : ℝ) * (x.b.den : ℝ) = (x.b.num : ℝ) := by
    rw [hbval]
    field_simp
  have hbs_lb : ((t : ℝ)) / (x.b.den : ℝ) ≤ (x.b : ℝ) * Real.sqrt 3 := by
    rw [div_le_iff₀ hden]
    calc (t : ℝ) ≤ (x.b.num : ℝ) * Real.sqrt 3 := ht1
      _ = (x.b : ℝ) * Real.sqrt 3 * (x.b.den : ℝ) := by rw [← hbden]; ring
  have hbs_ub : (x.b : ℝ) * Real.sqrt 3 < ((t : ℝ) + 1) / (x.b.den : ℝ) := by
    rw [lt_div_iff₀ hden]
    calc (x.b : ℝ) * Real.sqrt 3 * (x.b.den : ℝ) = (x.b.num : ℝ) * Real.sqrt 3 := by
          rw [← hbden]; ring
      _ < (t : ℝ) + 1 := ht2
  have hq1 : (cq : ℝ) = (x.a : ℝ) + (t : ℝ) / (x.b.den : ℝ) := by
    rw [hcqdef]
    push_cast
    ring
  have hdiv1 : ((t : ℝ) + 1) / (x.b.den : ℝ) ≤ (t : ℝ) / (x.b.den : ℝ) + 1 := by
    rw [add_div]
    have : (1 : ℝ) / (x.b.den : ℝ) ≤ 1 := by
      rw [div_le_one hden]
      exact hden1
    linarith
  have hcl : ((c : ℝ)) ≤ x.val := by
    have h1 : ((c : ℝ)) ≤ (cq : ℝ) := by exact_mod_cast Int.floor_le cq
    have h2 : (cq : ℝ) ≤ x.val := by
      rw [hq1, Q3.val]
      linarith
    linarith
  have hcu : x.val < ((c : ℝ)) + 2 := by
    have h1 : (cq : ℝ) < ((c : ℝ)) + 1 := by exact_mod_cast Int.lt_floor_add_one cq
    have h2 : x.val < (cq : ℝ) + 1 := by
      rw [hq1, Q3.val]
      linarith
    linarith
  split_ifs with hif
  · rw [Q3.le_iff_val, Q3.val_intQ3] at hif
    push_cast at hif
    constructor
    · push_cast
      linarith
    · push_cast
      linarith
  · rw [Q3.le_iff_val, Q3.val_intQ3] at hif
    push_neg at hif
    push_cast at hif
    constructor
    · linarith
    · linarith

/-- Equivalence with the mathematical floor. -/
lemma floorQ3_eq (x : Q3) : floorQ3 x = ⌊x.val⌋ := by
  obtain ⟨h1, h2⟩ := floorQ3_spec x
  exact (Int.floor_eq_iff.mpr ⟨h1, h2⟩).symm

/-- `Math.ceil` of the program. -/
def ceilQ3 (x : Q3) : ℤ := -floorQ3 (-x)

lemma ceilQ3_eq (x : Q3) : ceilQ3 x = ⌈x.val⌉ := by
  rw [ceilQ3, floorQ3_eq, Q3.val_neg, Int.floor_neg, neg_neg]

/-- `Math.round` of the program: `Math.round x = ⌊x + 1/2⌋` (half-up rounding). -/
def jsRound (x : Q3) : ℤ := floorQ3 (x + Q3.ofRat (mkRat 1 2))

lemma jsRound_eq (x : Q3) : jsRound x = ⌊x.val + 1 / 2⌋ := by
  rw [jsRound, floorQ3_eq, Q3.val_add, Q3.val_ofRat]
  norm_num

/-- `Math.round` as a number-valued function (the program keeps the result as a number). -/
def mathRound (x : Q3) : Q3 := intQ3 (jsRound x)

/-- `Math.abs` of the program. -/
def absQ3 (x : Q3) : Q3 := if x < 0 then -x else x

lemma absQ3_val (x : Q3) : (absQ3 x).val = |x.val| := by
  rw [absQ3]
  split_ifs with h
  · rw [Q3.lt_iff_val, Q3.val_zero] at h
    rw [Q3.val_neg, abs_of_neg h]
  · rw [Q3.lt_iff_val, Q3.val_zero, not_lt] at h
    rw [abs_of_nonneg h]

/-- `Math.min` of the program. -/
def minQ3 (x y : Q3) : Q3 := if x ≤ y then x else y

/-- `Math.max` of the program. -/
def maxQ3 (x y : Q3) : Q3 := if x ≤ y then y else x

/-! ### Model of `src/unnamed/part_000` (pointy-top variant) -/

/-- A 2-D pixel point `{x, y}`. -/
@[ext] structure Pt where
  x : Q3
  y : Q3
deriving DecidableEq, Repr

/-- A hex in cube coordinates.  Components are numbers: inside
`pixel_to_hex` they are fractional. -/
@[ext] structure Hex where
  q : Q3
  r : Q3
  s : Q3
deriving DecidableEq, Repr

/-- The forgiving `Hex` constructor of part_000 (always invoked with all
three arguments in this file): when `Math.round(q + r + s) !== 0` it warns
and corrects by `this.s = -q - r` (the first correction branch applies
because `q` and `r` are defined); otherwise the components are stored as
given. -/
def hexMk (q r s : Q3) : Hex :=
  if jsRound (q + r + s) ≠ 0 then ⟨q, r, -q - r⟩ else ⟨q, r, s⟩

/-- `Hex.add` of part_000. -/
def hexAdd (a b : Hex) : Hex := hexMk (a.q + b.q) (a.r + b.r) (a.s + b.s)

/-- `Hex.equals` of part_000 (JavaScript `===` on the three components). -/
def hexEquals (a b : Hex) : Bool :=
  decide (a.q = b.q) && decide (a.r = b.r) && decide (a.s = b.s)

/-- The zero-sum invariant `q + r + s = 0`. -/
def zeroSum (h : Hex) : Prop := h.q + h.r + h.s = 0

instance (h : Hex) : Decidable (zeroSum h) := by
  unfold zeroSum
  infer_instance

/-- One entry `fi = {x, y}` of the orientation record. -/
structure FPoint where
  x : Q3
  y : Q3

/-- The orientation record of `HEX_CONSTANTS.layout`. -/
structure OrientationData where
  start_angle : ℚ
  f0 : FPoint
  f1 : FPoint
  f2 : FPoint
  f3 : FPoint
  f4 : FPoint
  f5 : FPoint

/-- The `hex_size : {q, r}` pair of scale factors of a layout. -/
structure HexSize where
  q : Q3
  r : Q3

/-- The layout object consumed by `hex_to_pixel` / `pixel_to_hex`. -/
structure Layout where
  orientation : OrientationData
  hex_size : HexSize
  origin : Pt

/-- The number `√3 / 2`. -/
def sqrt3Half : Q3 := ⟨0, mkRat 1 2⟩

/-- `HEX_CONSTANTS.layout.orientation` of part_000 (lines 327-338). -/
def hexConstOrientation : OrientationData where
  start_angle := mkRat 1 2
  f0 := ⟨sqrt3Q, sqrt3Half⟩
  f1 := ⟨sqrt3Half, sqrt3Half⟩
  f2 := ⟨0, sqrt3Q⟩
  f3 := ⟨-sqrt3Half, sqrt3Half⟩
  f4 := ⟨-sqrt3Q, 0⟩
  f5 := ⟨-sqrt3Half, -sqrt3Half⟩

/-- `hex_to_pixel` of part_000 (lines 53-65). -/
def hex_to_pixel (hex : Hex) (layout : Layout) : Pt :=
  let M := layout.orientation
  let size := layout.hex_size
  let origin := layout.origin
  ⟨size.q * (M.f0.x * hex.q + M.f1.x * hex.r) + origin.x,
   size.r * (M.f2.y * hex.q + M.f3.y * hex.r) + origin.y⟩

/-- `hex_round` of part_000 (lines 68-85). -/
def hex_round (hex : Hex) : Hex :=
  let rx := mathRound hex.q
  let ry := mathRound hex.r
  let rz := mathRound hex.s
  let x_diff := absQ3 (rx - hex.q)
  let y_diff := absQ3 (ry - hex.r)
  let z_diff := absQ3 (rz - hex.s)
  if x_diff > y_diff ∧ x_diff > z_diff then hexMk (-ry - rz) ry rz
  else if y_diff > z_diff then hexMk rx (-rx - rz) rz
  else hexMk rx ry (-rx - ry)

/-- `pixel_to_hex` of part_000 (lines 88-103). -/
def pixel_to_hex (point : Pt) (layout : Layout) : Hex :=
  let M := layout.orientation
  let size := layout.hex_size
  let origin := layout.origin
  let ptx := (point.x - origin.x) / size.q
  let pty := (point.y - origin.y) / size.r
  let q := M.f0.x * ptx + M.f1.x * pty
  let r := M.f2.y * ptx + M.f3.y * pty
  hex_round (hexMk q r (-q - r))

/-- The list `lo, lo+1, ..., hi` of loop indices (empty when `hi < lo`). -/
def intRange (lo hi : ℤ) : List ℤ := (List.range (hi + 1 - lo).toNat).map fun (i : ℕ) => lo + (i : ℤ)

/-- The enumeration loop of `updateGridDisplay` (part_000, lines 226-238):
`for (q = -R; q <= R; q++) for (r = max(-R, -q-R); r <= min(R, -q+R); r++)`
with `s = -q - r`. -/
def diskCoords (R : ℤ) : List (ℤ × ℤ × ℤ) :=
  (intRange (-R) R).flatMap fun q =>
    (intRange (max (-R) (-q - R)) (min R (-q + R))).map fun r => (q, r, -q - r)

/-- The `gameHexes` list built by the loop (each triple goes through the
`Hex` constructor). -/
def gameHexesOf (R : ℤ) : List Hex :=
  (diskCoords R).map fun t => hexMk (intQ3 t.1) (intQ3 t.2.1) (intQ3 t.2.2)

/-- The mutable state of part_000 that the claims are about: the enumerated
grid and the currently selected hex (`selectedHex`, `null` = none).
`selectedHexGraphics` is non-null exactly when `selectedHex` is (the two are
always assigned together). -/
structure AppState where
  gameHexes : List Hex
  selectedHex : Option Hex
deriving DecidableEq, Repr

/-- `targetMaxRadius` of `updateGridDisplay` (line 199). -/
def targetMaxRadius : ℤ := 5

/-- `updateGridDisplay` of part_000 (lines 157-239) as a state transformer.
It clears the graphics map and `gameHexes`, computes `currentScreenCenter`,
`currentHexSize` and `currentMaxRadius` from the window size, and refills
`gameHexes`; it never assigns `selectedHex`, which therefore keeps its
previous value.  The returned extras are the globals `currentHexSize` and
`currentScreenCenter` that `onHexClick` later reads. -/
def updateGridDisplay (screenWidth screenHeight : Q3) (st : AppState) :
    AppState × Q3 × Pt :=
  let currentScreenCenter : Pt := ⟨screenWidth / intQ3 2, screenHeight / intQ3 2⟩
  let requiredSizeForWidth : Q3 :=
    if 0 < targetMaxRadius then (screenWidth / intQ3 (2 * targetMaxRadius + 1)) / sqrt3Q
    else screenWidth / intQ3 2
  let requiredSizeForHeight : Q3 :=
    if 0 < targetMaxRadius then (screenHeight / intQ3 (2 * targetMaxRadius + 1)) / intQ3 2
    else screenHeight / intQ3 2
  let currentHexSize : Q3 :=
    minQ3 requiredSizeForWidth requiredSizeForHeight * Q3.ofRat (mkRat 9 10)
  let R_from_height : Q3 := (screenHeight / currentHexSize / intQ3 2 - intQ3 1) / intQ3 2
  let R_from_width : Q3 := (screenWidth / currentHexSize / sqrt3Q - intQ3 1) / intQ3 2
  let currentMaxRadius : ℤ := max 0 (floorQ3 (minQ3 R_from_height R_from_width))
  (⟨gameHexesOf currentMaxRadius, st.selectedHex⟩, currentHexSize, currentScreenCenter)

/-- `onHexClick` of part_000 (lines 246-290): convert the click point with
the current layout, search `gameHexes` for an equal hex, clear any previous
highlight (`selectedHex = null`), then select the found hex if any.  The
`hexGraphicsMap.get` lookups succeed for every member of `gameHexes`
(the map is filled in the same loop that fills `gameHexes`), so the net
effect on the selection is `selectedHex := foundHex`.  The grid itself is
not modified. -/
def onHexClick (clickPoint : Pt) (currentHexSize : Q3) (currentScreenCenter : Pt)
    (st : AppState) : AppState :=
  let layout : Layout :=
    ⟨hexConstOrientation, ⟨currentHexSize, currentHexSize⟩, currentScreenCenter⟩
  let clickedHex := pixel_to_hex clickPoint layout
  let foundHex := st.gameHexes.find? fun hex => hexEquals hex clickedHex
  ⟨st.gameHexes, foundHex⟩

/-! ### Model of `src/script.js` (flat-top variant) -/

/-- The two orientations understood by script.js. -/
inductive HexOrientation where
  | flatTop
  | pointyTop
deriving DecidableEq, Repr

/-- `HEX_SIZE` of script.js. -/
def HEX_SIZE : Q3 := intQ3 50

/-- `HEX_ORIENTATION` of script.js (the configured value is `'flat-top'`). -/
def HEX_ORIENTATION : HexOrientation := .flatTop

/-- The error thrown by the strict `Hex` constructor of script.js. -/
inductive HexError where
  | invalidCoordinate
deriving DecidableEq, Repr

/-- A script.js `Hex`.  Its `id` field is the string `"q,r,s"`, which is
determined by the three components (and distinct for distinct triples), so
it is not stored separately. -/
@[ext] structure SHex where
  q : Q3
  r : Q3
  s : Q3
deriving DecidableEq, Repr

/-- The strict `Hex` constructor of script.js (lines 13-21): it throws
exactly when `q + r + s !== 0`, otherwise it stores the components as
given. -/
def sHexMake (q r s : Q3) : Except HexError SHex :=
  if q + r + s ≠ 0 then .error .invalidCoordinate else .ok ⟨q, r, s⟩

/-- `Hex.toPixel` of script.js (lines 32-42). -/
def sToPixel (h : SHex) (orientation : HexOrientation) (size : Q3) (origin : Pt) : Pt :=
  match orientation with
  | .flatTop =>
      ⟨size * (Q3.ofRat (mkRat 3 2) * h.q) + origin.x,
       size * (sqrt3Half * h.q + sqrt3Q * h.r) + origin.y⟩
  | .pointyTop =>
      ⟨size * (sqrt3Q * h.q + sqrt3Half * h.r) + origin.x,
       size * (Q3.ofRat (mkRat 3 2) * h.r) + origin.y⟩

/-- The screen-bounds filter of `HexGrid.generateGrid` (lines 96-97 and
122-123): keep a candidate hex iff its pixel center lies strictly inside
the viewport expanded by `2 * hexSize` on every side. -/
def inExpandedBox (pixel : Pt) (width height hexSize : Q3) : Prop :=
  -hexSize * intQ3 2 < pixel.x ∧ pixel.x < width + hexSize * intQ3 2 ∧
  -hexSize * intQ3 2 < pixel.y ∧ pixel.y < height + hexSize * intQ3 2

instance (p : Pt) (w h s : Q3) : Decidable (inExpandedBox p w h s) := by
  unfold inExpandedBox
  infer_instance

/-- `this.gridCenter` as set by `generateGrid`: the viewport center. -/
def gridCenterOf (width height : Q3) : Pt := ⟨width / intQ3 2, height / intQ3 2⟩

/-- `qMax` of `generateGrid`: `ceil(width / (hexSize * 1.5)) + 1` for
flat-top, `ceil(width / (hexSize * √3)) + 1` for pointy-top. -/
def gridQMax (hexOrientation : HexOrientation) (hexSize width : Q3) : ℤ :=
  match hexOrientation with
  | .flatTop => ceilQ3 (width / (hexSize * Q3.ofRat (mkRat 3 2))) + 1
  | .pointyTop => ceilQ3 (width / (hexSize * sqrt3Q)) + 1

/-- `rMax` of `generateGrid`: `ceil(height / hexHeight) + 1` where
`hexHeight = hexSize * √3` for flat-top and `hexSize * 1.5` for pointy-top. -/
def gridRMax (hexOrientation : HexOrientation) (hexSize height : Q3) : ℤ :=
  match hexOrientation with
  | .flatTop => ceilQ3 (height / (hexSize * sqrt3Q)) + 1
  | .pointyTop => ceilQ3 (height / (hexSize * Q3.ofRat (mkRat 3 2))) + 1

/-- `HexGrid.generateGrid` of script.js (lines 71-129).  The `Hex`
constructor inside the loop is called with `s = -q - r`, so it never
throws (see `sHexMake_loop_ok`); the grid map is keyed by the id string
`"q,r,s"`, which is unique per triple, so the map contents are the list of
kept hexes. -/
def generateGrid (hexOrientation : HexOrientation) (hexSize width height : Q3) :
    List SHex :=
  (intRange (-gridQMax hexOrientation hexSize width) (gridQMax hexOrientation hexSize width)).flatMap
    fun q =>
      ((intRange (-gridRMax hexOrientation hexSize height)
            (gridRMax hexOrientation hexSize height)).filter fun r =>
        decide (inExpandedBox
          (sToPixel ⟨intQ3 q, intQ3 r, intQ3 (-q - r)⟩ hexOrientation hexSize
            (gridCenterOf width height))
          width height hexSize)).map
        fun r => (⟨intQ3 q, intQ3 r, intQ3 (-q - r)⟩ : SHex)

/-- The loop constructor calls of `generateGrid` never throw. -/
lemma sHexMake_loop_ok (q r : ℤ) :
    sHexMake (intQ3 q) (intQ3 r) (intQ3 (-q - r)) = .ok ⟨intQ3 q, intQ3 r, intQ3 (-q - r)⟩ := by
  rw [sHexMake, if_neg]
  intro h
  apply h
  apply Q3.val_inj
  simp

/-- The selection bookkeeping of `GameRenderer.drawGrid` (script.js, lines
150-168): if an id is selected and the grid still contains it, the
highlight is redrawn and `selectedHexId` keeps that id; if the selected id
is absent from the grid, `selectedHexId` is set to `null`.  Ids are the
strings `"q,r,s"`, represented here by the component triples. -/
def drawGridSel (selectedHexId : Option (Q3 × Q3 × Q3)) (hexes : List SHex) :
    Option (Q3 × Q3 × Q3) :=
  match selectedHexId with
  | none => none
  | some key => if hexes.any fun h => decide ((h.q, h.r, h.s) = key) then some key else none

/-! ### Shared helper lemmas -/

set_option maxRecDepth 40000

lemma jsRound_zero : jsRound 0 = 0 := by decide

lemma q3_sum_zero (q r : Q3) : q + r + (-q - r) = 0 := by
  apply Q3.val_inj
  simp

/-- The forgiving constructor on a triple that already sums to zero keeps it. -/
lemma hexMk_of_sum_zero {q r s : Q3} (h : q + r + s = 0) : hexMk q r s = ⟨q, r, s⟩ := by
  rw [hexMk, if_neg]
  intro hc
  rw [h, jsRound_zero] at hc
  exact hc rfl

/-- Construction yields a zero-sum coordinate exactly when the input already
sums to zero or the rounded sum is nonzero (so that the correction fires). -/
lemma zeroSum_hexMk_iff (q r s : Q3) :
    zeroSum (hexMk q r s) ↔ (q + r + s = 0 ∨ jsRound (q + r + s) ≠ 0) := by
  rw [hexMk]
  split_ifs with hc
  · show q + r + (-q - r) = 0 ↔ _
    constructor
    · intro _
      exact Or.inr hc
    · intro _
      exact q3_sum_zero q r
  · push_neg at hc
    show q + r + s = 0 ↔ _
    constructor
    · exact fun h => Or.inl h
    · rintro (h | h)
      · exact h
      · exact absurd hc h

/-- Every branch of `hex_round` returns a corrected, zero-sum triple. -/
lemma zeroSum_hex_round (h : Hex) : zeroSum (hex_round h) := by
  rw [hex_round]
  split_ifs <;>
    · rw [zeroSum_hexMk_iff]
      refine Or.inl ?_
      apply Q3.val_inj
      simp
      try ring

lemma intQ3_inj {m n : ℤ} (h : intQ3 m = intQ3 n) : m = n := by
  have := congrArg Q3.a h
  simp only [intQ3] at this
  exact_mod_cast this

/-! ### C1 -/

/-- C1: the spec states that `toCoordinate(toPixel(C, layout), layout) = C`
exactly, for every cube coordinate `C` and valid layout.  The code violates
this: `pixel_to_hex` applies the forward orientation coefficients
`(f0.x, f1.x)` and `(f2.y, f3.y)` to the normalized point instead of an
inverse matrix (and `hex_to_pixel` computes `y` from the same coefficients
as `x`, contradicting the comment above it that says `y = size * (3/2 * r)`),
so the round trip sends `(1, 0, -1)` (with unit cell size and zero origin)
to `(5, 4, -9)`. -/
theorem c1_roundtrip_fails :
    pixel_to_hex
        (hex_to_pixel (hexMk (intQ3 1) (intQ3 0) (intQ3 (-1)))
          ⟨hexConstOrientation, ⟨intQ3 1, intQ3 1⟩, ⟨intQ3 0, intQ3 0⟩⟩)
        ⟨hexConstOrientation, ⟨intQ3 1, intQ3 1⟩, ⟨intQ3 0, intQ3 0⟩⟩
      = ⟨intQ3 5, intQ3 4, intQ3 (-9)⟩ ∧
    (⟨intQ3 5, intQ3 4, intQ3 (-9)⟩ : Hex) ≠ hexMk (intQ3 1) (intQ3 0) (intQ3 (-1)) := by
  constructor
  · decide
  · decide

/-! ### C2 -/

/-- C2 counterexample: with the pointy-top constants, cell size 50 and
origin (400, 300), the click at pixel (400, 150) resolves to a coordinate
with `r = -2`, not `r = -1` as the claim states. -/
theorem c2_counterexample :
    (pixel_to_hex ⟨intQ3 400, intQ3 150⟩
        ⟨hexConstOrientation, ⟨intQ3 50, intQ3 50⟩, ⟨intQ3 400, intQ3 300⟩⟩).r
      = intQ3 (-2) ∧
    intQ3 (-2) ≠ intQ3 (-1) := by
  constructor
  · decide
  · decide

/-- C2 amended: in the end-to-end scenario (pointy-top constants, cell size
50, origin (400, 300)), pixel (400, 300) resolves to `(0, 0, 0)` and pixel
(400, 150) resolves to `(-3, -2, 5)`, whose `r` component is `-2`. -/
theorem c2_end_to_end :
    pixel_to_hex ⟨intQ3 400, intQ3 300⟩
        ⟨hexConstOrientation, ⟨intQ3 50, intQ3 50⟩, ⟨intQ3 400, intQ3 300⟩⟩
      = ⟨intQ3 0, intQ3 0, intQ3 0⟩ ∧
    pixel_to_hex ⟨intQ3 400, intQ3 150⟩
        ⟨hexConstOrientation, ⟨intQ3 50, intQ3 50⟩, ⟨intQ3 400, intQ3 300⟩⟩
      = ⟨intQ3 (-3), intQ3 (-2), intQ3 5⟩ := by
  constructor
  · decide
  · decide

/-! ### C3 -/

/-- C3: the `HEX_CONSTANTS` orientation has `(f0.x, f1.x) = (√3, √3/2)` and
`(f2.y, f3.y) = (√3, √3/2)`, so for every hex and every layout using these
constants with `hex_size.q = hex_size.r`, the pixel center of `hex_to_pixel`
satisfies `x - origin.x = y - origin.y`: all hex centers lie on one diagonal
line through the origin. -/
theorem c3_diagonal_degeneracy (h : Hex) (L : Layout)
    (ho : L.orientation = hexConstOrientation)
    (hs : L.hex_size.q = L.hex_size.r) :
    hexConstOrientation.f0.x = sqrt3Q ∧ hexConstOrientation.f1.x = sqrt3Half ∧
    hexConstOrientation.f2.y = sqrt3Q ∧ hexConstOrientation.f3.y = sqrt3Half ∧
    (hex_to_pixel h L).x - L.origin.x = (hex_to_pixel h L).y - L.origin.y := by
  refine ⟨rfl, rfl, rfl, rfl, ?_⟩
  rw [hex_to_pixel]
  simp only [ho, hexConstOrientation, ← hs]
  apply Q3.ext <;> simp

/-- Witness for C3 at a concrete hex and layout. -/
theorem c3_witness :
    (hex_to_pixel ⟨intQ3 1, intQ3 2, intQ3 (-3)⟩
        ⟨hexConstOrientation, ⟨intQ3 2, intQ3 2⟩, ⟨intQ3 7, intQ3 9⟩⟩).x
        - (⟨intQ3 7, intQ3 9⟩ : Pt).x
      = (hex_to_pixel ⟨intQ3 1, intQ3 2, intQ3 (-3)⟩
          ⟨hexConstOrientation, ⟨intQ3 2, intQ3 2⟩, ⟨intQ3 7, intQ3 9⟩⟩).y
        - (⟨intQ3 7, intQ3 9⟩ : Pt).y :=
  (c3_diagonal_degeneracy ⟨intQ3 1, intQ3 2, intQ3 (-3)⟩
    ⟨hexConstOrientation, ⟨intQ3 2, intQ3 2⟩, ⟨intQ3 7, intQ3 9⟩⟩ rfl rfl).2.2.2.2

/-! ### C6 -/

/-- C6 counterexample: the forgiving constructor only corrects when
`Math.round(q+r+s) ≠ 0`, so `new Hex(0.4, 0, 0)` is stored uncorrected with
`q + r + s = 0.4 ≠ 0`. -/
theorem c6_counterexample :
    ¬ zeroSum (hexMk (Q3.ofRat (mkRat 2 5)) 0 0) := by decide

/-- C6 amended: a constructed coordinate is zero-sum iff the input already
summed to zero or the rounded sum was nonzero (so the correction fired) —
in particular construction from any zero-sum triple, `add` of two zero-sum
hexes, and every `hex_round` result are zero-sum; but inputs with
`0 < |q+r+s| < 1/2` survive construction un-corrected. -/
theorem c6_zero_sum :
    (∀ q r s : Q3, zeroSum (hexMk q r s) ↔ (q + r + s = 0 ∨ jsRound (q + r + s) ≠ 0)) ∧
    (∀ a b : Hex, zeroSum a → zeroSum b → zeroSum (hexAdd a b)) ∧
    (∀ h : Hex, zeroSum (hex_round h)) := by
  refine ⟨zeroSum_hexMk_iff, ?_, zeroSum_hex_round⟩
  intro a b ha hb
  rw [hexAdd, zeroSum_hexMk_iff]
  refine Or.inl ?_
  apply Q3.val_inj
  have ha' : (a.q + a.r + a.s).val = (0 : Q3).val := congrArg Q3.val ha
  have hb' : (b.q + b.r + b.s).val = (0 : Q3).val := congrArg Q3.val hb
  simp only [Q3.val_add, Q3.val_zero] at ha' hb' ⊢
  linarith

/-- Witness for C6: `add` of two concrete zero-sum hexes is zero-sum. -/
theorem c6_witness :
    zeroSum (hexAdd ⟨intQ3 1, intQ3 (-2), intQ3 1⟩ ⟨intQ3 0, intQ3 1, intQ3 (-1)⟩) :=
  c6_zero_sum.2.1 ⟨intQ3 1, intQ3 (-2), intQ3 1⟩ ⟨intQ3 0, intQ3 1, intQ3 (-1)⟩
    (by decide) (by decide)

/-! ### C9 -/

/-- C9: the strict constructor of script.js throws `InvalidCoordinate`
exactly when `q + r + s ≠ 0`, and otherwise returns the coordinate with all
three components exactly as given. -/
theorem c9_strict_constructor (q r s : Q3) :
    (sHexMake q r s = .error .invalidCoordinate ↔ q + r + s ≠ 0) ∧
    (q + r + s = 0 → sHexMake q r s = .ok ⟨q, r, s⟩) := by
  constructor
  · rw [sHexMake]
    split_ifs with h
    · simp [h]
    · simp [h]
  · intro h
    rw [sHexMake, if_neg]
    intro hc
    exact hc h

/-- Witness for C9: a non-zero-sum triple throws, a zero-sum triple is
returned unchanged. -/
theorem c9_witness :
    sHexMake (intQ3 1) (intQ3 1) (intQ3 1) = .error .invalidCoordinate ∧
    sHexMake (intQ3 1) (intQ3 2) (intQ3 (-3)) = .ok ⟨intQ3 1, intQ3 2, intQ3 (-3)⟩ :=
  ⟨(c9_strict_constructor (intQ3 1) (intQ3 1) (intQ3 1)).1.mpr (by decide),
   (c9_strict_constructor (intQ3 1) (intQ3 2) (intQ3 (-3))).2 (by decide)⟩

/-! ### C4 -/

lemma q3_not_le {x y : Q3} : ¬ x ≤ y ↔ y.val < x.val := by
  rw [Q3.le_iff_val]
  exact not_le

lemma q3_not_lt {x y : Q3} : ¬ x < y ↔ y.val ≤ x.val := by
  rw [Q3.lt_iff_val]
  exact not_lt

/-- Cube rounding as the spec words it: round each axis, then recompute
"whichever axis has the largest error", deciding "in the order q, then r,
then s" — among the axes attaining the maximal error, the first of q, r, s
is the one recomputed. -/
def hex_round_specModel (hex : Hex) : Hex :=
  let rx := mathRound hex.q
  let ry := mathRound hex.r
  let rz := mathRound hex.s
  let x_diff := absQ3 (rx - hex.q)
  let y_diff := absQ3 (ry - hex.r)
  let z_diff := absQ3 (rz - hex.s)
  if y_diff ≤ x_diff ∧ z_diff ≤ x_diff then ⟨-ry - rz, ry, rz⟩
  else if z_diff ≤ y_diff then ⟨rx, -rx - rz, rz⟩
  else ⟨rx, ry, -rx - ry⟩

/-- C4 counterexample: on the spec's own boundary input `(0.5, 0.5, -1.0)`
the code repairs the `r` axis and returns `(1, 0, -1)`, while the
q-then-r-then-s largest-error rule of the claim dictates repairing `q`,
giving `(0, 1, -1)`.  (Reading "largest" strictly instead would dictate
repairing `s`, giving `(1, 1, -2)` — also different.)  The code's strict
comparisons `x_diff > y_diff && x_diff > z_diff`, `y_diff > z_diff` break
ties in favour of the later axis, not the earlier one. -/
theorem c4_counterexample :
    hex_round ⟨Q3.ofRat (mkRat 1 2), Q3.ofRat (mkRat 1 2), intQ3 (-1)⟩
      = ⟨intQ3 1, intQ3 0, intQ3 (-1)⟩ ∧
    hex_round_specModel ⟨Q3.ofRat (mkRat 1 2), Q3.ofRat (mkRat 1 2), intQ3 (-1)⟩
      = ⟨intQ3 0, intQ3 1, intQ3 (-1)⟩ ∧
    hex_round ⟨Q3.ofRat (mkRat 1 2), Q3.ofRat (mkRat 1 2), intQ3 (-1)⟩
      ≠ hex_round_specModel ⟨Q3.ofRat (mkRat 1 2), Q3.ofRat (mkRat 1 2), intQ3 (-1)⟩ := by
  refine ⟨by decide, by decide, by decide⟩

/-- C4 amended: `hex_round` rounds each axis to the nearest integer
independently and recomputes exactly the axis with the largest rounding
error from the zero-sum constraint of the other two, with ties broken in
favour of the *later* axis: `s` is recomputed whenever its error is ≥ both
others, otherwise `r` whenever its error is ≥ q's, otherwise `q`. -/
theorem c4_round_ties_to_later_axis (hex : Hex) :
    hex_round hex =
      (let rx := mathRound hex.q
       let ry := mathRound hex.r
       let rz := mathRound hex.s
       let x_diff := absQ3 (rx - hex.q)
       let y_diff := absQ3 (ry - hex.r)
       let z_diff := absQ3 (rz - hex.s)
       if x_diff ≤ z_diff ∧ y_diff ≤ z_diff then hexMk rx ry (-rx - ry)
       else if x_diff ≤ y_diff then hexMk rx (-rx - rz) rz
       else hexMk (-ry - rz) ry rz) := by
  rw [hex_round]
  dsimp only
  set dx := absQ3 (mathRound hex.q - hex.q) with hdx
  set dy := absQ3 (mathRound hex.r - hex.r) with hdy
  set dz := absQ3 (mathRound hex.s - hex.s) with hdz
  split_ifs with h1 h2 h3 h4 h5 h6 h7 h8
  · exfalso
    obtain ⟨a1, a2⟩ := h1
    obtain ⟨c1, _⟩ := h2
    rw [gt_iff_lt, Q3.lt_iff_val] at a2
    rw [Q3.le_iff_val] at c1
    linarith
  · exfalso
    obtain ⟨a1, _⟩ := h1
    rw [gt_iff_lt, Q3.lt_iff_val] at a1
    rw [Q3.le_iff_val] at h3
    linarith
  · rfl
  · exfalso
    obtain ⟨_, c2⟩ := h5
    rw [gt_iff_lt, Q3.lt_iff_val] at h4
    rw [Q3.le_iff_val] at c2
    linarith
  · rfl
  · exfalso
    apply h1
    rw [q3_not_le] at h6
    rw [gt_iff_lt, Q3.lt_iff_val] at h4
    exact ⟨Q3.lt_iff_val.mpr h6, Q3.lt_iff_val.mpr (by linarith)⟩
  · rfl
  · exfalso
    rw [gt_iff_lt, q3_not_lt] at h4
    rw [Q3.le_iff_val] at h8
    rcases not_and_or.mp h7 with h | h
    · rw [q3_not_le] at h
      exact h1 ⟨Q3.lt_iff_val.mpr (by linarith), Q3.lt_iff_val.mpr (by linarith)⟩
    · rw [q3_not_le] at h
      linarith
  · exfalso
    rw [gt_iff_lt, q3_not_lt] at h4
    rw [q3_not_le] at h8
    rcases not_and_or.mp h7 with h | h
    · rw [q3_not_le] at h
      exact h1 ⟨Q3.lt_iff_val.mpr (by linarith), Q3.lt_iff_val.mpr (by linarith)⟩
    · rw [q3_not_le] at h
      linarith

/-! ### C7 -/

/-- C7 counterexample: in part_000, `updateGridDisplay` rebuilds the grid
but never touches `selectedHex`.  On a 22×22 window the rebuilt grid is the
radius-5 disk, which does not contain the previously selected hex
`(10, 0, -10)` — yet after the rebuild the selection still holds it, so the
state is not Unselected. -/
theorem c7_counterexample :
    ((updateGridDisplay (intQ3 22) (intQ3 22)
        ⟨[], some ⟨intQ3 10, intQ3 0, intQ3 (-10)⟩⟩).1.selectedHex
      = some ⟨intQ3 10, intQ3 0, intQ3 (-10)⟩) ∧
    (⟨intQ3 10, intQ3 0, intQ3 (-10)⟩ : Hex) ∉
      (updateGridDisplay (intQ3 22) (intQ3 22)
        ⟨[], some ⟨intQ3 10, intQ3 0, intQ3 (-10)⟩⟩).1.gameHexes := by
  constructor
  · rfl
  · decide

/-- C7 amended: the invariant holds for the script.js renderer: after
`GameRenderer.drawGrid` runs on a rebuilt grid, a selection of an id absent
from the grid becomes Unselected, and whatever id remains selected is a
member of the current grid.  (The part_000 variant violates the claim: its
`updateGridDisplay` leaves the stale `selectedHex` untouched.) -/
theorem c7_rebuild_invariant (sel : Option (Q3 × Q3 × Q3)) (hexes : List SHex) :
    (∀ key, sel = some key → (¬ ∃ h ∈ hexes, (h.q, h.r, h.s) = key) →
      drawGridSel sel hexes = none) ∧
    (∀ key, drawGridSel sel hexes = some key → ∃ h ∈ hexes, (h.q, h.r, h.s) = key) := by
  constructor
  · rintro key rfl habs
    rw [drawGridSel, if_neg]
    intro hc
    rw [List.any_eq_true] at hc
    obtain ⟨h, hmem, hkey⟩ := hc
    exact habs ⟨h, hmem, of_decide_eq_true hkey⟩
  · intro key hsel
    cases sel with
    | none => simp [drawGridSel] at hsel
    | some k =>
      rw [drawGridSel] at hsel
      by_cases hc : (hexes.any fun h => decide ((h.q, h.r, h.s) = k)) = true
      · rw [if_pos hc] at hsel
        obtain rfl : k = key := Option.some.inj hsel
        rw [List.any_eq_true] at hc
        obtain ⟨h, hmem, hkey⟩ := hc
        exact ⟨h, hmem, of_decide_eq_true hkey⟩
      · rw [if_neg hc] at hsel
        exact absurd hsel (by simp)

/-- Witness for C7: a stale selection over an empty grid is cleared. -/
theorem c7_witness :
    drawGridSel (some (intQ3 1, intQ3 0, intQ3 (-1))) [] = none :=
  (c7_rebuild_invariant (some (intQ3 1, intQ3 0, intQ3 (-1))) []).1
    (intQ3 1, intQ3 0, intQ3 (-1)) rfl (by simp)

/-! ### C8 -/

/-- C8 counterexample: a no-match click does not leave the selection
unchanged.  With the radius-0 grid `[(0,0,0)]` and `(0,0,0)` selected, a
click at pixel (0, -3) (unit cell size, zero origin) resolves to
`(-3, -2, 5)`, which matches no grid member — and the handler clears the
selection from `some (0,0,0)` to `none`. -/
theorem c8_counterexample :
    (∀ h ∈ [(⟨intQ3 0, intQ3 0, intQ3 0⟩ : Hex)],
      hexEquals h (pixel_to_hex ⟨intQ3 0, intQ3 (-3)⟩
        ⟨hexConstOrientation, ⟨intQ3 1, intQ3 1⟩, ⟨intQ3 0, intQ3 0⟩⟩) = false) ∧
    (onHexClick ⟨intQ3 0, intQ3 (-3)⟩ (intQ3 1) ⟨intQ3 0, intQ3 0⟩
        ⟨[⟨intQ3 0, intQ3 0, intQ3 0⟩], some ⟨intQ3 0, intQ3 0, intQ3 0⟩⟩).selectedHex
      = none ∧
    (some (⟨intQ3 0, intQ3 0, intQ3 0⟩ : Hex)) ≠ none := by
  refine ⟨by decide, by decide, by decide⟩

/-- C8 amended: when the converted click coordinate matches no member of
the current grid, `onHexClick` never throws, leaves the grid untouched, and
*clears* the selection: afterwards the state is always Unselected (so the
selection is unchanged only if it was already Unselected). -/
theorem c8_no_match_clears (pt : Pt) (size : Q3) (center : Pt) (st : AppState)
    (hnomatch : ∀ h ∈ st.gameHexes,
      hexEquals h (pixel_to_hex pt ⟨hexConstOrientation, ⟨size, size⟩, center⟩) = false) :
    (onHexClick pt size center st).gameHexes = st.gameHexes ∧
    (onHexClick pt size center st).selectedHex = none := by
  refine ⟨rfl, ?_⟩
  show st.gameHexes.find? _ = none
  rw [List.find?_eq_none]
  intro h hmem
  rw [hnomatch h hmem]
  exact Bool.false_ne_true

/-- Witness for C8 at the concrete no-match scenario. -/
theorem c8_witness :
    (onHexClick ⟨intQ3 0, intQ3 (-3)⟩ (intQ3 1) ⟨intQ3 0, intQ3 0⟩
        ⟨[⟨intQ3 1, intQ3 (-1), intQ3 0⟩], none⟩).gameHexes
      = [(⟨intQ3 1, intQ3 (-1), intQ3 0⟩ : Hex)] ∧
    (onHexClick ⟨intQ3 0, intQ3 (-3)⟩ (intQ3 1) ⟨intQ3 0, intQ3 0⟩
        ⟨[⟨intQ3 1, intQ3 (-1), intQ3 0⟩], none⟩).selectedHex = none :=
  c8_no_match_clears ⟨intQ3 0, intQ3 (-3)⟩ (intQ3 1) ⟨intQ3 0, intQ3 0⟩
    ⟨[⟨intQ3 1, intQ3 (-1), intQ3 0⟩], none⟩ (by decide)

/-! ### C10 -/

lemma mem_intRange {lo hi x : ℤ} : x ∈ intRange lo hi ↔ lo ≤ x ∧ x ≤ hi := by
  simp only [intRange, List.mem_map, List.mem_range]
  constructor
  · rintro ⟨i, hilt, rfl⟩
    omega
  · intro hx
    exact ⟨(x - lo).toNat, by omega, by omega⟩

/-- C10: a candidate `(q, r, -q-r)` from the swept `q × r` range is a member
of the generated grid if and only if its projected pixel center lies
strictly inside the viewport expanded by `2 * hexSize` on each side. -/
theorem c10_rect_membership (o : HexOrientation) (hexSize width height : Q3) (q r : ℤ)
    (hq : -gridQMax o hexSize width ≤ q ∧ q ≤ gridQMax o hexSize width)
    (hr : -gridRMax o hexSize height ≤ r ∧ r ≤ gridRMax o hexSize height) :
    (⟨intQ3 q, intQ3 r, intQ3 (-q - r)⟩ : SHex) ∈ generateGrid o hexSize width height ↔
      inExpandedBox
        (sToPixel ⟨intQ3 q, intQ3 r, intQ3 (-q - r)⟩ o hexSize (gridCenterOf width height))
        width height hexSize := by
  rw [generateGrid]
  simp only [List.mem_flatMap, List.mem_map, List.mem_filter, mem_intRange]
  constructor
  · rintro ⟨q', hq', r', ⟨hr', hbox⟩, heq⟩
    obtain ⟨e1, e2, -⟩ := SHex.mk.injEq .. |>.mp heq
    obtain rfl : q' = q := intQ3_inj e1
    obtain rfl : r' = r := intQ3_inj e2
    exact of_decide_eq_true hbox
  · intro hbox
    exact ⟨q, hq, r, ⟨hr, decide_eq_true hbox⟩, rfl⟩

/-- Witness for C10 at a concrete orientation, viewport and candidate. -/
theorem c10_witness :
    (⟨intQ3 0, intQ3 0, intQ3 0⟩ : SHex) ∈ generateGrid .flatTop (intQ3 1) (intQ3 1) (intQ3 1) ↔
      inExpandedBox
        (sToPixel ⟨intQ3 0, intQ3 0, intQ3 0⟩ .flatTop (intQ3 1) (gridCenterOf (intQ3 1) (intQ3 1)))
        (intQ3 1) (intQ3 1) (intQ3 1) :=
  c10_rect_membership .flatTop (intQ3 1) (intQ3 1) (intQ3 1) 0 0 (by decide) (by decide)

/-! ### C5 -/

lemma intRange_nodup (lo hi : ℤ) : (intRange lo hi).Nodup :=
  List.Nodup.map (fun a b h => by omega) (List.nodup_range _)

lemma intRange_length (lo hi : ℤ) : (intRange lo hi).length = (hi + 1 - lo).toNat := by
  simp [intRange]

lemma intRange_cons (lo hi : ℤ) (h : lo ≤ hi) : intRange lo hi = lo :: intRange (lo + 1) hi := by
  simp only [intRange]
  have hn : (hi + 1 - lo).toNat = (hi + 1 - (lo + 1)).toNat + 1 := by omega
  rw [hn, List.range_succ_eq_map, List.map_cons, List.map_map]
  congr 1
  · simp
  · refine List.map_congr_left fun a _ => ?_
    simp only [Function.comp_apply]
    push_cast
    ring

lemma intRange_snoc (lo hi : ℤ) (h : lo ≤ hi) : intRange lo hi = intRange lo (hi - 1) ++ [hi] := by
  simp only [intRange]
  have hn : (hi + 1 - lo).toNat = (hi - 1 + 1 - lo).toNat + 1 := by omega
  rw [hn, List.range_succ, List.map_append]
  congr 1
  simp only [List.map_cons, List.map_nil, List.cons.injEq, and_true]
  omega

lemma sum_map_const_sub (l : List ℤ) (c : ℤ) (f : ℤ → ℤ) :
    (l.map fun a => c - f a).sum = (l.length : ℤ) * c - (l.map f).sum := by
  induction l with
  | nil => simp
  | cons x xs ih =>
    simp only [List.map_cons, List.sum_cons, List.length_cons, ih]
    push_cast
    ring

lemma absSum (k : ℕ) :
    ((intRange (-(k : ℤ)) (k : ℤ)).map (fun q => |q|)).sum = (k : ℤ) * ((k : ℤ) + 1) := by
  induction k with
  | zero => decide
  | succ k ih =>
    have hc : intRange (-((k + 1 : ℕ) : ℤ)) ((k + 1 : ℕ) : ℤ)
        = (-((k : ℤ) + 1)) :: (intRange (-(k : ℤ)) (k : ℤ) ++ [(k : ℤ) + 1]) := by
      push_cast
      rw [intRange_cons (-(k + 1)) (k + 1) (by omega)]
      rw [show (-((k : ℤ) + 1) + 1) = -(k : ℤ) by ring]
      rw [intRange_snoc (-(k : ℤ)) ((k : ℤ) + 1) (by omega)]
      rw [show ((k : ℤ) + 1 - 1) = (k : ℤ) by ring]
    rw [hc]
    simp only [List.map_cons, List.sum_cons, List.map_append, List.sum_append, ih,
      List.map_nil, List.sum_nil]
    have e1 : |(-((k : ℤ) + 1))| = (k : ℤ) + 1 := by
      rw [abs_of_nonpos (by omega)]
      ring
    have e2 : |((k : ℤ) + 1)| = (k : ℤ) + 1 := abs_of_nonneg (by omega)
    rw [e1, e2]
    push_cast
    ring

/-- C5: the radius-bounded enumeration of `updateGridDisplay` produces
exactly the zero-sum coordinates with `max(|q|, |r|, |s|) ≤ R`, each exactly
once, for a total of `3R² + 3R + 1` members; `gameHexes` receives one hex
per enumerated triple. -/
theorem c5_disk_enumeration (R : ℤ) (hR : 0 ≤ R) :
    (∀ q r s : ℤ, ((q, r, s) ∈ diskCoords R ↔
        q + r + s = 0 ∧ max (max |q| |r|) |s| ≤ R)) ∧
    (diskCoords R).Nodup ∧
    ((diskCoords R).length : ℤ) = 3 * R ^ 2 + 3 * R + 1 ∧
    (gameHexesOf R).length = (diskCoords R).length := by
  refine ⟨?_, ?_, ?_, List.length_map ..⟩
  · intro q r s
    simp only [diskCoords, List.mem_flatMap, List.mem_map, mem_intRange]
    constructor
    · rintro ⟨q', hq', r', hr', heq⟩
      rw [Prod.ext_iff] at heq
      obtain ⟨h1, heq2⟩ := heq
      rw [Prod.ext_iff] at heq2
      obtain ⟨h2, h3⟩ := heq2
      simp only at h1 h2 h3
      subst h1 h2
      rw [max_le_iff, max_le_iff, abs_le, abs_le, abs_le]
      omega
    · rintro ⟨hsum, hbound⟩
      rw [max_le_iff, max_le_iff, abs_le, abs_le, abs_le] at hbound
      refine ⟨q, by omega, r, by omega, ?_⟩
      rw [show -q - r = s from by omega]
  · rw [diskCoords, List.nodup_flatMap]
    constructor
    · intro q hq
      refine List.Nodup.map ?_ (intRange_nodup _ _)
      intro a b h
      have := congrArg (fun t => t.2.1) h
      simpa using this
    · refine (intRange_nodup _ _).pairwise_of_forall_ne ?_
      intro a ha b hb hab
      intro x hxa hxb
      simp only [List.mem_map] at hxa hxb
      obtain ⟨r1, -, h1⟩ := hxa
      obtain ⟨r2, -, h2⟩ := hxb
      apply hab
      have e1 := congrArg (fun t => t.1) h1
      have e2 := congrArg (fun t => t.1) h2
      simp only at e1 e2
      omega
  · obtain ⟨k, rfl⟩ : ∃ k : ℕ, R = (k : ℤ) := ⟨R.toNat, by omega⟩
    rw [diskCoords, List.length_flatMap, Nat.cast_list_sum, List.map_map]
    rw [List.map_congr_left
      (g := fun q : ℤ => 2 * (k : ℤ) + 1 - |q|)
      (fun q hq => ?_)]
    · rw [sum_map_const_sub, absSum k]
      have hlen : ((intRange (-(k : ℤ)) (k : ℤ)).length : ℤ) = 2 * (k : ℤ) + 1 := by
        rw [intRange_length]
        omega
      rw [hlen]
      ring
    · rw [mem_intRange] at hq
      simp only [Function.comp_apply, List.length_map, intRange_length]
      rcases le_or_lt 0 q with h | h
      · rw [abs_of_nonneg h]
        omega
      · rw [abs_of_neg h]
        omega

/-- Witness for C5 at radius 2: 19 coordinates. -/
theorem c5_witness : ((diskCoords 2).length : ℤ) = 3 * 2 ^ 2 + 3 * 2 + 1 :=
  (c5_disk_enumeration 2 (by decide)).2.2.1
